import Mathlib

/-!
Verification of the next-measure scheduling logic of practice-buddy.

The embedding below mirrors `get_next_measure` in `src/backend/app.py`
(lines 266-370) together with the database rows it reads: the `songs`,
`measure_groups` and `practice_sessions` tables.  Ratings are the four
strings accepted by the `practice_sessions.rating` CHECK constraint;
timestamps are abstracted to naturals ordered like the ISO datetime
strings SQLite compares.
-/

/-- A row of the `songs` table (only the id is read by the scheduler). -/
structure Song where
  id : Nat
deriving DecidableEq, Repr

/-- A row of the `measure_groups` table. -/
structure MeasureGroup where
  id : Nat
  songId : Nat
  startMeasure : Nat
  endMeasure : Nat
deriving DecidableEq, Repr

/-- A row of the `practice_sessions` table (columns read by the scheduler). -/
structure PracticeSession where
  measureGroupId : Nat
  songId : Nat
  rating : String
  practicedAt : Nat
deriving DecidableEq, Repr

/-- The database state visible to `get_next_measure`. -/
structure DB where
  songs : List Song
  groups : List MeasureGroup
  sessions : List PracticeSession
deriving DecidableEq, Repr

/-- `rating_scores` dict of app.py lines 272-277: a lookup that fails
(KeyError) on any symbol outside the four. -/
def ratingScores (r : String) : Option Nat :=
  if r = "easy" then some 3
  else if r = "medium" then some 2
  else if r = "hard" then some 1
  else if r = "snooze" then some 0
  else none

/-- One processed row of the measures query (app.py lines 312-318). -/
structure MeasureItem where
  measure : Nat
  category : String
  best_rating : Nat
  practice_count : Nat
  last_practiced : Option Nat
deriving DecidableEq, Repr

/-- The measure-group rows of one song (`WHERE mg.song_id = ?`). -/
def songGroups (db : DB) (sid : Nat) : List MeasureGroup :=
  db.groups.filter (fun g => g.songId == sid)

/-- The distinct `start_measure` values of one song's groups, ascending:
the SQL `GROUP BY mg.start_measure ORDER BY mg.start_measure`. -/
def catalogStarts (db : DB) (sid : Nat) : List Nat :=
  List.insertionSort (· ≤ ·) ((songGroups db sid).map (fun g => g.startMeasure)).dedup

/-- The practice sessions joined to the start-measure bucket `s`:
`LEFT JOIN practice_sessions ps ON mg.id = ps.measure_group_id` restricted
to this song's groups whose `start_measure` is `s`. -/
def sessionsForStart (db : DB) (sid : Nat) (s : Nat) : List PracticeSession :=
  db.sessions.filter (fun ps =>
    (songGroups db sid).any (fun g => g.startMeasure == s && g.id == ps.measureGroupId))

/-- Score every rating in order; `none` models the KeyError raised by
`rating_scores[r]` on an unrecognized symbol. -/
def mapScores : List String → Option (List Nat)
  | [] => some []
  | r :: rs =>
    match ratingScores r, mapScores rs with
    | some v, some vs => some (v :: vs)
    | _, _ => none

/-- `max((rating_scores[r] for r in ratings), default=0)` (app.py line 304). -/
def bestRatingOf (ratings : List String) : Option Nat :=
  (mapScores ratings).map (fun vs => vs.foldl Nat.max 0)

/-- The category assignment of app.py lines 306-310: three categories,
challenging requires best_rating of at least 2. -/
def categoryOf (best : Nat) : String :=
  if 3 ≤ best then "proficient"
  else if 2 ≤ best then "challenging"
  else "unlearned"

/-- Build the MeasureItem for one start-measure bucket (app.py lines 302-318). -/
def mkItem (db : DB) (sid : Nat) (s : Nat) : Option MeasureItem :=
  let ss := sessionsForStart db sid s
  (bestRatingOf (ss.map (fun ps => ps.rating))).map (fun best =>
    { measure := s
      category := categoryOf best
      best_rating := best
      practice_count := ss.length
      last_practiced := (ss.map (fun ps => ps.practicedAt)).max? })

/-- Process every bucket in order; `none` if any rating is unscorable. -/
def buildMeasures (db : DB) (sid : Nat) : List Nat → Option (List MeasureItem)
  | [] => some []
  | s :: rest =>
    match mkItem db sid s, buildMeasures db sid rest with
    | some m, some ms => some (m :: ms)
    | _, _ => none

/-- The `measures` list of app.py lines 300-318 for one song. -/
def measuresOf (db : DB) (sid : Nat) : Option (List MeasureItem) :=
  buildMeasures db sid (catalogStarts db sid)

/-- `is_measure_learned` (app.py lines 321-322). -/
def isMeasureLearned (m : MeasureItem) : Bool :=
  2 ≤ m.best_rating

/-- The window computation of app.py lines 324-337: start at 5, add 3 when
there are more than 5 measures and the first 5 are all learned, then cap at
the number of measures. -/
def windowSize (ms : List MeasureItem) : Nat :=
  let w :=
    if 5 < ms.length && (ms.take 5).countP isMeasureLearned == 5 then 5 + 3 else 5
  min ms.length w

/-- `eligible_measures = measures[:window_size]` (app.py line 340). -/
def eligibleMeasures (ms : List MeasureItem) : List MeasureItem :=
  ms.take (windowSize ms)

/-- The category-to-rank dict inside `measure_priority` (app.py lines 347-351).
It is only ever applied to the three strings `categoryOf` produces; the
final arm is the unreachable default. -/
def categoryScore (c : String) : Nat :=
  if c = "unlearned" then 0
  else if c = "challenging" then 1
  else if c = "proficient" then 2
  else 0

/-- `measure_priority` (app.py lines 346-358). -/
def measurePriority (m : MeasureItem) : Nat × Nat × Nat :=
  (categoryScore m.category, m.practice_count, m.measure)

/-- Strict lexicographic comparison of priority triples, as Python compares
the tuples returned by `measure_priority`. -/
def tupLt : Nat × Nat × Nat → Nat × Nat × Nat → Bool
  | (a, b, c), (d, e, f) =>
    a < d || (a == d && (b < e || (b == e && c < f)))

/-- Non-strict lexicographic comparison of priority triples. -/
def tupLe : Nat × Nat × Nat → Nat × Nat × Nat → Bool
  | (a, b, c), (d, e, f) =>
    a < d || (a == d && (b < e || (b == e && c ≤ f)))

/-- `min(..., key=...)` over a non-empty iterable: fold that keeps the
current best and replaces it only on a strictly smaller key, so the first
minimum wins, exactly as Python's `min`. -/
def foldMin (key : MeasureItem → Nat × Nat × Nat) (x : MeasureItem)
    (xs : List MeasureItem) : MeasureItem :=
  xs.foldl (fun acc y => if tupLt (key y) (key acc) then y else acc) x

/-- `min(eligible_measures, key=measure_priority)` with the empty case split
off (app.py lines 342-343 and 360). -/
def pythonMin (key : MeasureItem → Nat × Nat × Nat) :
    List MeasureItem → Option MeasureItem
  | [] => none
  | x :: xs => some (foldMin key x xs)

/-- The stats object of the JSON response (app.py lines 364-369). -/
structure Stats where
  category : String
  best_rating : Nat
  practice_count : Nat
  last_practiced : Option Nat
deriving DecidableEq, Repr

/-- The three possible responses of the endpoint. -/
inductive NextResponse where
  | notFound : NextResponse
  | defaultMeasure : NextResponse
  | chosen : Nat → Stats → NextResponse
deriving DecidableEq, Repr

/-- The keys of the `stats` dict in the JSON response (app.py lines 364-369). -/
def statsKeys : List String :=
  ["category", "best_rating", "practice_count", "last_practiced"]

/-- The top-level keys of the JSON response (app.py lines 362-370). -/
def responseKeys : List String :=
  ["measure", "stats"]

/-- `get_next_measure` (app.py lines 266-370).  `none` models the uncaught
KeyError on an invalid stored rating; the database CHECK constraint makes
that branch unreachable for well-formed states. -/
def getNextMeasure (db : DB) (sid : Nat) : Option NextResponse :=
  if db.songs.any (fun s => s.id == sid) then
    match measuresOf db sid with
    | none => none
    | some ms =>
      match pythonMin measurePriority (eligibleMeasures ms) with
      | none => some NextResponse.defaultMeasure
      | some m =>
        some (NextResponse.chosen m.measure
          ⟨m.category, m.best_rating, m.practice_count, m.last_practiced⟩)
  else some NextResponse.notFound

/-!
Spec-side definitions.  Each `spec...` definition below follows the words of
the specification (not the code) and exists only to be compared with the
code-derived definitions above.
-/

/-- A measure item as the specification describes it: start index, end
index, proficiency category. -/
structure SpecItem where
  start : Nat
  stop : Nat
  category : String
deriving DecidableEq, Repr

/-- Grow a window by 1 while the predicate accepts it, with explicit fuel. -/
def specGrow (ok : Nat → Bool) : Nat → Nat → Nat
  | w, 0 => w
  | w, fuel + 1 => if ok w then specGrow ok (w + 1) fuel else w

/-- Spec wording: every single with start ≤ w and every group fully
contained in [1, w] has category proficient. -/
def specProficientPrefix (singles groups : List SpecItem) (w : Nat) : Bool :=
  ((singles.filter (fun m => m.start ≤ w)).all (fun m => m.category == "proficient"))
  && ((groups.filter (fun g => 1 ≤ g.start && g.stop ≤ w)).all
      (fun g => g.category == "proficient"))

/-- The learning window as the specification words it: start at 1, grow by
1 per fully proficient prefix, never past the number of singles. -/
def specWindowC1 (singles groups : List SpecItem) : Nat :=
  specGrow (specProficientPrefix singles groups) 1 (singles.length - 1)

/-- The tiered candidate set as the specification words it. -/
def specCandidatesC2 (w : Nat) (singles groups : List SpecItem) : List SpecItem :=
  let t1 := singles.filter (fun m => m.start ≤ w && !(m.category == "proficient"))
  if !t1.isEmpty then t1
  else
    let t2 := groups.filter
      (fun g => 1 ≤ g.start && g.stop ≤ w && !(g.category == "proficient"))
    if !t2.isEmpty then t2
    else if w < singles.length then singles.filter (fun m => m.start == w + 1)
    else []

/-- Spec wording of the selector's first random branch: with a draw
r < 0.15 and a non-empty proficient bucket, a proficient pick is returned. -/
def specTakesProficientBucket (r : ℚ) (cands : List SpecItem) : Bool :=
  (decide (r < 15 / 100))
  && !(cands.filter (fun m => m.category == "proficient")).isEmpty

/-- The 4-level category table as the specification words it. -/
def specCategory4 (best : Nat) : String :=
  if 3 ≤ best then "proficient"
  else if 2 ≤ best then "decent"
  else if 1 ≤ best then "needs_practice"
  else "unlearned"

/-- The number of catalog items the specification's partition yields: one
item per distinct (start, end) pair. -/
def specCatalogItemCount (gs : List MeasureGroup) : Nat :=
  ((gs.map (fun g => (g.startMeasure, g.endMeasure))).dedup).length

/-- The stats keys the specification's response contract requires. -/
def specStatsKeysC8 : List String :=
  ["category", "best_rating", "practice_count", "last_practiced", "is_group"]

/-- The category ranks named by the specification's selector ordering
(unlearned 0, needs_practice/challenging 1, decent 2, proficient 3). -/
def claimCategoryRank (c : String) : Nat :=
  if c = "unlearned" then 0
  else if c = "needs_practice" then 1
  else if c = "challenging" then 1
  else if c = "decent" then 2
  else if c = "proficient" then 3
  else 0

/-- The specification's priority tuple for an item. -/
def claimTuple (m : MeasureItem) : Nat × Nat × Nat :=
  (claimCategoryRank m.category, m.practice_count, m.measure)

/-!
Concrete database states used in counterexamples and witnesses.
-/

/-- Six single-measure groups, nothing practiced. -/
def db1 : DB :=
  { songs := [⟨1⟩]
    groups := [⟨1, 1, 1, 1⟩, ⟨2, 1, 2, 2⟩, ⟨3, 1, 3, 3⟩, ⟨4, 1, 4, 4⟩,
               ⟨5, 1, 5, 5⟩, ⟨6, 1, 6, 6⟩]
    sessions := [] }

/-- The spec-side view of `db1`: six unlearned singles. -/
def specSingles1 : List SpecItem :=
  [⟨1, 1, "unlearned"⟩, ⟨2, 2, "unlearned"⟩, ⟨3, 3, "unlearned"⟩,
   ⟨4, 4, "unlearned"⟩, ⟨5, 5, "unlearned"⟩, ⟨6, 6, "unlearned"⟩]

/-- Five single-measure groups, measure 1 rated easy once. -/
def db2 : DB :=
  { songs := [⟨1⟩]
    groups := [⟨1, 1, 1, 1⟩, ⟨2, 1, 2, 2⟩, ⟨3, 1, 3, 3⟩, ⟨4, 1, 4, 4⟩, ⟨5, 1, 5, 5⟩]
    sessions := [⟨1, 1, "easy", 10⟩] }

/-- The spec-side view of `db2`: measure 1 proficient, the rest unlearned. -/
def specSingles2 : List SpecItem :=
  [⟨1, 1, "proficient"⟩, ⟨2, 2, "unlearned"⟩, ⟨3, 3, "unlearned"⟩,
   ⟨4, 4, "unlearned"⟩, ⟨5, 5, "unlearned"⟩]

/-- Two single-measure groups, measure 1 rated easy once. -/
def db3 : DB :=
  { songs := [⟨1⟩]
    groups := [⟨1, 1, 1, 1⟩, ⟨2, 1, 2, 2⟩]
    sessions := [⟨1, 1, "easy", 10⟩] }

/-- The spec-side view of `db3`'s candidate set. -/
def specCands3 : List SpecItem :=
  [⟨1, 1, "proficient"⟩, ⟨2, 2, "unlearned"⟩]

/-- One single measure rated hard once. -/
def db5 : DB :=
  { songs := [⟨1⟩]
    groups := [⟨1, 1, 1, 1⟩]
    sessions := [⟨1, 1, "hard", 10⟩] }

/-- A single measure (3,3) and a group (3,5) sharing a start; only the
single was ever practiced. -/
def db9 : DB :=
  { songs := [⟨1⟩]
    groups := [⟨1, 1, 3, 3⟩, ⟨2, 1, 3, 5⟩]
    sessions := [⟨1, 1, "easy", 10⟩] }

/-!
Helper lemmas about the priority order and Python's `min`.
-/

lemma tupLe_refl (p : Nat × Nat × Nat) : tupLe p p = true := by
  obtain ⟨a, b, c⟩ := p
  simp [tupLe]

lemma tupLt_eq_false_iff (p q : Nat × Nat × Nat) :
    tupLt p q = false ↔ tupLe q p = true := by
  obtain ⟨a, b, c⟩ := p
  obtain ⟨d, e, f⟩ := q
  simp [tupLt, tupLe]
  omega

lemma tupLt_imp_tupLe {p q : Nat × Nat × Nat} (h : tupLt p q = true) :
    tupLe p q = true := by
  obtain ⟨a, b, c⟩ := p
  obtain ⟨d, e, f⟩ := q
  simp [tupLt, tupLe] at h ⊢
  omega

lemma tupLe_trans {p q r : Nat × Nat × Nat} (hpq : tupLe p q = true)
    (hqr : tupLe q r = true) : tupLe p r = true := by
  obtain ⟨a, b, c⟩ := p
  obtain ⟨d, e, f⟩ := q
  obtain ⟨g, i, j⟩ := r
  simp [tupLe] at hpq hqr ⊢
  omega

lemma foldMin_spec (key : MeasureItem → Nat × Nat × Nat) (x : MeasureItem)
    (xs : List MeasureItem) :
    foldMin key x xs ∈ x :: xs ∧
      ∀ y ∈ x :: xs, tupLe (key (foldMin key x xs)) (key y) = true := by
  induction xs generalizing x with
  | nil =>
    refine ⟨List.mem_singleton.mpr rfl, ?_⟩
    intro y hy
    rw [List.mem_singleton.mp hy]
    exact tupLe_refl _
  | cons y ys ih =>
    have hstep : foldMin key x (y :: ys)
        = foldMin key (if tupLt (key y) (key x) then y else x) ys := rfl
    by_cases h : tupLt (key y) (key x) = true
    · rw [hstep, if_pos h]
      obtain ⟨hmem, hmin⟩ := ih y
      refine ⟨?_, ?_⟩
      · rcases List.mem_cons.mp hmem with h1 | h1
        · exact List.mem_cons_of_mem _ (List.mem_cons.mpr (Or.inl h1))
        · exact List.mem_cons_of_mem _ (List.mem_cons.mpr (Or.inr h1))
      · intro z hz
        rcases List.mem_cons.mp hz with rfl | hz2
        · exact tupLe_trans (hmin y (List.mem_cons_self _ _)) (tupLt_imp_tupLe h)
        · exact hmin z hz2
    · rw [hstep, if_neg h]
      obtain ⟨hmem, hmin⟩ := ih x
      have hxy : tupLe (key x) (key y) = true :=
        (tupLt_eq_false_iff _ _).mp (Bool.eq_false_iff.mpr h)
      refine ⟨?_, ?_⟩
      · rcases List.mem_cons.mp hmem with h1 | h1
        · exact List.mem_cons.mpr (Or.inl h1)
        · exact List.mem_cons_of_mem _ (List.mem_cons_of_mem _ h1)
      · intro z hz
        rcases List.mem_cons.mp hz with rfl | hz2
        · exact hmin z (List.mem_cons_self _ _)
        rcases List.mem_cons.mp hz2 with rfl | hz3
        · exact tupLe_trans (hmin x (List.mem_cons_self _ _)) hxy
        · exact hmin z (List.mem_cons_of_mem _ hz3)

lemma pythonMin_spec {key : MeasureItem → Nat × Nat × Nat}
    {l : List MeasureItem} {m : MeasureItem} (h : pythonMin key l = some m) :
    m ∈ l ∧ ∀ y ∈ l, tupLe (key m) (key y) = true := by
  cases l with
  | nil => simp [pythonMin] at h
  | cons x xs =>
    have hm : foldMin key x xs = m := by
      simpa [pythonMin] using h
    rw [← hm]
    exact foldMin_spec key x xs

lemma pythonMin_eq_none_iff {key : MeasureItem → Nat × Nat × Nat}
    {l : List MeasureItem} : pythonMin key l = none ↔ l = [] := by
  cases l <;> simp [pythonMin]

lemma categoryOf_cases (b : Nat) :
    categoryOf b = "unlearned" ∨ categoryOf b = "challenging" ∨
      categoryOf b = "proficient" := by
  unfold categoryOf
  split
  · exact Or.inr (Or.inr rfl)
  · split
    · exact Or.inr (Or.inl rfl)
    · exact Or.inl rfl

/-- On the three categories the code produces, the specification's rank
table orders exactly as the code's `categoryScore`. -/
lemma rank_score_iff {a b : String}
    (ha : a = "unlearned" ∨ a = "challenging" ∨ a = "proficient")
    (hb : b = "unlearned" ∨ b = "challenging" ∨ b = "proficient") :
    (claimCategoryRank a < claimCategoryRank b ↔ categoryScore a < categoryScore b)
    ∧ (claimCategoryRank a = claimCategoryRank b ↔ categoryScore a = categoryScore b) := by
  rcases ha with rfl | rfl | rfl <;> rcases hb with rfl | rfl | rfl <;>
    exact ⟨by decide, by decide⟩

lemma tupLe_claim_of_tupLe_code {x y : MeasureItem}
    (hx : x.category = categoryOf x.best_rating)
    (hy : y.category = categoryOf y.best_rating)
    (h : tupLe (measurePriority x) (measurePriority y) = true) :
    tupLe (claimTuple x) (claimTuple y) = true := by
  have hcx := categoryOf_cases x.best_rating
  have hcy := categoryOf_cases y.best_rating
  rw [← hx] at hcx
  rw [← hy] at hcy
  obtain ⟨hlt, heq⟩ := rank_score_iff hcx hcy
  simp only [tupLe, measurePriority, claimTuple, Bool.or_eq_true, Bool.and_eq_true,
    decide_eq_true_eq, beq_iff_eq] at h ⊢
  rcases h with h | ⟨h1, h2⟩
  · exact Or.inl (hlt.mpr h)
  · exact Or.inr ⟨heq.mpr h1, h2⟩

lemma mapScores_forall₂ :
    ∀ {rs : List String} {vs : List Nat}, mapScores rs = some vs →
      List.Forall₂ (fun r v => ratingScores r = some v) rs vs := by
  intro rs
  induction rs with
  | nil =>
    intro vs h
    simp [mapScores] at h
    subst h
    exact List.Forall₂.nil
  | cons r rest ih =>
    intro vs h
    unfold mapScores at h
    cases hk : ratingScores r with
    | none => rw [hk] at h; simp at h
    | some v =>
      rw [hk] at h
      cases hb : mapScores rest with
      | none => rw [hb] at h; simp at h
      | some tl =>
        rw [hb] at h
        simp only [Option.some.injEq] at h
        subst h
        exact List.Forall₂.cons hk (ih hb)

lemma mapScores_total :
    ∀ (rs : List String), (∀ r ∈ rs, ratingScores r ≠ none) →
      ∃ vs, mapScores rs = some vs := by
  intro rs
  induction rs with
  | nil => intro _; exact ⟨[], rfl⟩
  | cons r rest ih =>
    intro h
    obtain ⟨vs, hvs⟩ := ih (fun x hx => h x (List.mem_cons_of_mem _ hx))
    have hr := h r (List.mem_cons_self _ _)
    cases hk : ratingScores r with
    | none => exact absurd hk hr
    | some v => exact ⟨v :: vs, by unfold mapScores; rw [hk, hvs]⟩

lemma le_foldl_max (l : List Nat) : ∀ (a : Nat), a ≤ l.foldl Nat.max a := by
  induction l with
  | nil => intro a; simp
  | cons b rest ih =>
    intro a
    calc a ≤ Nat.max a b := Nat.le_max_left a b
    _ ≤ (b :: rest).foldl Nat.max a := by simpa using ih (Nat.max a b)

lemma foldl_max_le {l : List Nat} {v : Nat} (hv : v ∈ l) :
    ∀ (a : Nat), v ≤ l.foldl Nat.max a := by
  induction l with
  | nil => cases hv
  | cons b rest ih =>
    intro a
    rcases List.mem_cons.mp hv with rfl | h2
    · calc v ≤ Nat.max a v := Nat.le_max_right a v
      _ ≤ (v :: rest).foldl Nat.max a := by simpa using le_foldl_max rest (Nat.max a v)
    · simpa using ih h2 (Nat.max a b)

lemma foldl_max_mem (l : List Nat) : ∀ (a : Nat),
    l.foldl Nat.max a = a ∨ l.foldl Nat.max a ∈ l := by
  induction l with
  | nil => intro a; exact Or.inl rfl
  | cons b rest ih =>
    intro a
    have hstep : (b :: rest).foldl Nat.max a = rest.foldl Nat.max (Nat.max a b) := rfl
    rcases ih (Nat.max a b) with h | h
    · rcases le_total a b with hab | hab
      · have hm : Nat.max a b = b := by
          show max a b = b
          exact max_eq_right hab
        rw [hstep, h, hm]
        exact Or.inr (List.mem_cons_self _ _)
      · have hm : Nat.max a b = a := by
          show max a b = a
          exact max_eq_left hab
        rw [hstep, h, hm]
        exact Or.inl rfl
    · rw [hstep]; exact Or.inr (List.mem_cons_of_mem _ h)

lemma mkItem_spec {db : DB} {sid s : Nat} {m : MeasureItem}
    (h : mkItem db sid s = some m) :
    m.measure = s ∧ m.category = categoryOf m.best_rating ∧
    m.practice_count = (sessionsForStart db sid s).length ∧
    m.last_practiced = ((sessionsForStart db sid s).map (fun ps => ps.practicedAt)).max? ∧
    bestRatingOf ((sessionsForStart db sid s).map (fun ps => ps.rating)) = some m.best_rating := by
  unfold mkItem at h
  rcases Option.map_eq_some'.mp h with ⟨best, hb, hm⟩
  subst hm
  exact ⟨rfl, rfl, rfl, rfl, hb⟩

lemma mkItem_total {db : DB} {sid s : Nat}
    (hvalid : ∀ ps ∈ db.sessions, ratingScores ps.rating ≠ none) :
    ∃ m, mkItem db sid s = some m := by
  have hval : ∀ r ∈ (sessionsForStart db sid s).map (fun ps => ps.rating),
      ratingScores r ≠ none := by
    intro r hr
    rcases List.mem_map.mp hr with ⟨ps, hps, rfl⟩
    exact hvalid ps (List.mem_of_mem_filter hps)
  obtain ⟨vs, hvs⟩ := mapScores_total _ hval
  exact ⟨{ measure := s
           category := categoryOf (vs.foldl Nat.max 0)
           best_rating := vs.foldl Nat.max 0
           practice_count := (sessionsForStart db sid s).length
           last_practiced :=
             ((sessionsForStart db sid s).map (fun ps => ps.practicedAt)).max? },
    by simp [mkItem, bestRatingOf, hvs]⟩

lemma buildMeasures_forall₂ {db : DB} {sid : Nat} :
    ∀ {l : List Nat} {ms : List MeasureItem}, buildMeasures db sid l = some ms →
      List.Forall₂ (fun s m => mkItem db sid s = some m) l ms := by
  intro l
  induction l with
  | nil =>
    intro ms h
    simp [buildMeasures] at h
    subst h
    exact List.Forall₂.nil
  | cons s rest ih =>
    intro ms h
    unfold buildMeasures at h
    cases hk : mkItem db sid s with
    | none => rw [hk] at h; simp at h
    | some m =>
      rw [hk] at h
      cases hb : buildMeasures db sid rest with
      | none => rw [hb] at h; simp at h
      | some tl =>
        rw [hb] at h
        simp only [Option.some.injEq] at h
        subst h
        exact List.Forall₂.cons hk (ih hb)

lemma buildMeasures_total {db : DB} {sid : Nat}
    (hvalid : ∀ ps ∈ db.sessions, ratingScores ps.rating ≠ none) :
    ∀ (l : List Nat), ∃ ms, buildMeasures db sid l = some ms ∧ ms.length = l.length := by
  intro l
  induction l with
  | nil => exact ⟨[], rfl, rfl⟩
  | cons s rest ih =>
    obtain ⟨ms, hms, hlen⟩ := ih
    obtain ⟨m, hm⟩ := mkItem_total (s := s) hvalid
    refine ⟨m :: ms, ?_, by simp [hlen]⟩
    unfold buildMeasures
    rw [hm, hms]

lemma mem_catalogStarts {db : DB} {sid s : Nat} :
    s ∈ catalogStarts db sid ↔ ∃ g ∈ songGroups db sid, g.startMeasure = s := by
  unfold catalogStarts
  rw [List.mem_insertionSort]
  simp [List.mem_dedup, List.mem_map]

lemma catalogStarts_sorted (db : DB) (sid : Nat) :
    (catalogStarts db sid).Sorted (· ≤ ·) :=
  List.sorted_insertionSort _ _

lemma catalogStarts_nodup (db : DB) (sid : Nat) : (catalogStarts db sid).Nodup := by
  have h := List.perm_insertionSort (· ≤ ·)
    (((songGroups db sid).map (fun g => g.startMeasure)).dedup)
  exact h.nodup_iff.mpr (List.nodup_dedup _)

lemma catalogStarts_eq_nil_iff {db : DB} {sid : Nat} :
    catalogStarts db sid = [] ↔ songGroups db sid = [] := by
  have hp := List.perm_insertionSort (α := Nat) (· ≤ ·)
    (((songGroups db sid).map (fun g => g.startMeasure)).dedup)
  constructor
  · intro h
    have hlen := hp.length_eq
    rw [show List.insertionSort (· ≤ ·)
        (((songGroups db sid).map (fun g => g.startMeasure)).dedup)
        = catalogStarts db sid from rfl, h] at hlen
    have hd : ((songGroups db sid).map (fun g => g.startMeasure)).dedup = [] :=
      List.length_eq_zero.mp hlen.symm
    rw [List.dedup_eq_nil] at hd
    exact List.map_eq_nil_iff.mp hd
  · intro h
    unfold catalogStarts
    rw [h]
    rfl

lemma windowSize_def (ms : List MeasureItem) :
    windowSize ms = min ms.length
      (if 5 < ms.length && (ms.take 5).countP isMeasureLearned == 5 then 8 else 5) := rfl

lemma windowSize_le_length (ms : List MeasureItem) : windowSize ms ≤ ms.length := by
  rw [windowSize_def]
  exact Nat.min_le_left _ _

lemma windowSize_le_eight (ms : List MeasureItem) : windowSize ms ≤ 8 := by
  rw [windowSize_def]
  have h : (if 5 < ms.length && (ms.take 5).countP isMeasureLearned == 5
      then 8 else 5) ≤ 8 := by split <;> omega
  exact le_trans (Nat.min_le_right _ _) h

lemma one_le_windowSize {ms : List MeasureItem} (h : ms ≠ []) :
    1 ≤ windowSize ms := by
  rw [windowSize_def]
  have h1 : 1 ≤ ms.length := List.length_pos.mpr h
  have h2 : 1 ≤ (if 5 < ms.length && (ms.take 5).countP isMeasureLearned == 5
      then 8 else 5) := by split <;> omega
  exact Nat.le_min.mpr ⟨h1, h2⟩

lemma eligibleMeasures_eq_nil_iff (ms : List MeasureItem) :
    eligibleMeasures ms = [] ↔ ms = [] := by
  unfold eligibleMeasures
  constructor
  · intro h
    by_contra hne
    have h1 := one_le_windowSize hne
    rcases List.take_eq_nil_iff.mp h with h2 | h2
    · omega
    · exact hne h2
  · intro h
    subst h
    rfl

lemma forall₂_mem_left {α β : Type} {R : α → β → Prop} :
    ∀ {l₁ : List α} {l₂ : List β}, List.Forall₂ R l₁ l₂ →
      ∀ a ∈ l₁, ∃ b ∈ l₂, R a b := by
  intro l₁ l₂ h
  induction h with
  | nil => intro a ha; cases ha
  | cons hr ht ih =>
    intro a ha
    rcases List.mem_cons.mp ha with rfl | h2
    · exact ⟨_, List.mem_cons_self _ _, hr⟩
    · obtain ⟨b, hb, hrb⟩ := ih a h2
      exact ⟨b, List.mem_cons_of_mem _ hb, hrb⟩

lemma forall₂_mem_right {α β : Type} {R : α → β → Prop} :
    ∀ {l₁ : List α} {l₂ : List β}, List.Forall₂ R l₁ l₂ →
      ∀ b ∈ l₂, ∃ a ∈ l₁, R a b := by
  intro l₁ l₂ h
  induction h with
  | nil => intro b hb; cases hb
  | cons hr ht ih =>
    intro b hb
    rcases List.mem_cons.mp hb with rfl | h2
    · exact ⟨_, List.mem_cons_self _ _, hr⟩
    · obtain ⟨a, ha, hra⟩ := ih b h2
      exact ⟨a, List.mem_cons_of_mem _ ha, hra⟩

lemma measures_map_measure {db : DB} {sid : Nat} :
    ∀ {l : List Nat} {ms : List MeasureItem},
      List.Forall₂ (fun s m => mkItem db sid s = some m) l ms →
      ms.map (fun m => m.measure) = l := by
  intro l ms h
  induction h with
  | nil => rfl
  | cons hr ht ih =>
    simp only [List.map_cons, ih, List.cons.injEq, and_true]
    exact (mkItem_spec hr).1

/-- The Bool gate in `windowSize`, restated as a proposition. -/
lemma windowCond_iff (ms : List MeasureItem) :
    (5 < ms.length && (ms.take 5).countP isMeasureLearned == 5) = true
      ↔ 5 < ms.length ∧ ∀ m ∈ ms.take 5, 2 ≤ m.best_rating := by
  rw [Bool.and_eq_true, decide_eq_true_eq, beq_iff_eq]
  apply and_congr_right
  intro hlen
  have hlen5 : (ms.take 5).length = 5 := by
    rw [List.length_take]
    omega
  constructor
  · intro h m hm
    have hall := List.countP_eq_length.mp
      (show (ms.take 5).countP isMeasureLearned = (ms.take 5).length by
        rw [hlen5]; exact h)
    simpa [isMeasureLearned] using hall m hm
  · intro h
    have hall : ∀ m ∈ ms.take 5, isMeasureLearned m = true := fun m hm => by
      simpa [isMeasureLearned] using h m hm
    have hc := List.countP_eq_length.mpr hall
    rw [hc, hlen5]

lemma categoryOf_iff (b : Nat) :
    (categoryOf b = "proficient" ↔ 3 ≤ b) ∧
    (categoryOf b = "challenging" ↔ b = 2) ∧
    (categoryOf b = "unlearned" ↔ b ≤ 1) := by
  unfold categoryOf
  split
  · rename_i h
    simp
    omega
  · split
    · rename_i h1 h2
      simp
      omega
    · rename_i h1 h2
      simp
      omega

lemma mem_take_mono {α : Type} {l : List α} {a : α} {p q : Nat}
    (hpq : p ≤ q) (h : a ∈ l.take p) : a ∈ l.take q := by
  have heq : l.take p = (l.take q).take p := by
    rw [List.take_take]
    congr 1
    omega
  rw [heq] at h
  exact List.take_subset _ _ h

/-- Invert a successful (chosen) run of `getNextMeasure`. -/
lemma chosen_inv {db : DB} {sid n : Nat} {st : Stats}
    (h : getNextMeasure db sid = some (NextResponse.chosen n st)) :
    ∃ ms m, measuresOf db sid = some ms ∧
      pythonMin measurePriority (eligibleMeasures ms) = some m ∧
      m ∈ eligibleMeasures ms ∧
      n = m.measure ∧
      st = ⟨m.category, m.best_rating, m.practice_count, m.last_practiced⟩ := by
  unfold getNextMeasure at h
  split at h
  · split at h
    · simp at h
    · split at h
      · simp at h
      · rename_i x1 ms hm x2 m hp
        simp only [Option.some.injEq, NextResponse.chosen.injEq] at h
        exact ⟨ms, m, hm, hp, (pythonMin_spec hp).1, h.1.symm, h.2.symm⟩
  · simp at h

/-!
Claim theorems.
-/

/-- Claim C6: the score table is the fixed total mapping easy=3, medium=2,
hard=1, snooze=0 and rejects any symbol outside these four; for every
rating sequence the best rating equals the maximum score among its
elements, or 0 for the empty sequence. -/
theorem c6_rating_model :
    ratingScores "easy" = some 3 ∧ ratingScores "medium" = some 2 ∧
    ratingScores "hard" = some 1 ∧ ratingScores "snooze" = some 0 ∧
    (∀ r : String, r ≠ "easy" → r ≠ "medium" → r ≠ "hard" → r ≠ "snooze" →
      ratingScores r = none) ∧
    bestRatingOf [] = some 0 ∧
    (∀ (rs : List String) (b : Nat), bestRatingOf rs = some b →
      (∀ r ∈ rs, ∀ v, ratingScores r = some v → v ≤ b) ∧
      (rs ≠ [] → ∃ r ∈ rs, ratingScores r = some b)) := by
  refine ⟨rfl, rfl, rfl, rfl, ?_, rfl, ?_⟩
  · intro r h1 h2 h3 h4
    simp [ratingScores, h1, h2, h3, h4]
  · intro rs b hb
    unfold bestRatingOf at hb
    rcases Option.map_eq_some'.mp hb with ⟨vs, hvs, hfold⟩
    have hfold2 : vs.foldl Nat.max 0 = b := hfold
    have hf := mapScores_forall₂ hvs
    constructor
    · intro r hr v hv
      obtain ⟨v2, hv2, hrv2⟩ := forall₂_mem_left hf r hr
      have hvv : v = v2 := by
        rw [hv] at hrv2
        exact Option.some.inj hrv2
      subst hvv
      rw [← hfold2]
      exact foldl_max_le hv2 0
    · intro hne
      have hvne : vs ≠ [] := by
        intro h0
        subst h0
        cases hf
        exact hne rfl
      have hmem : b ∈ vs := by
        rcases foldl_max_mem vs 0 with h0 | h0
        · cases vs with
          | nil => exact absurd rfl hvne
          | cons v0 rest =>
            have hle : v0 ≤ (v0 :: rest).foldl Nat.max 0 :=
              foldl_max_le (List.mem_cons_self v0 rest) 0
            have hb0 : b = v0 := by omega
            rw [hb0]
            exact List.mem_cons_self _ _
        · rw [← hfold2]
          exact h0
      obtain ⟨r, hr, hrb⟩ := forall₂_mem_right hf b hmem
      exact ⟨r, hr, hrb⟩

/-- Witness for C6: the hypotheses of `c6_rating_model` hold at concrete
inputs ("maybe" is rejected; in ["hard", "easy"] the best rating 3 bounds
the score 1 of "hard"). -/
theorem c6_rating_model_witness :
    ratingScores "maybe" = none ∧ (1 : Nat) ≤ 3 := by
  constructor
  · exact c6_rating_model.2.2.2.2.1 "maybe" (by decide) (by decide) (by decide) (by decide)
  · exact (c6_rating_model.2.2.2.2.2.2 ["hard", "easy"] 3 (by decide)).1
      "hard" (by decide) 1 (by decide)

/-- Counterexample to claim C5: a measure whose only rating is hard has
best_rating 1; the code categorizes it `unlearned`, while the claim's
4-level table demands `needs_practice` for best_rating ≥ 1.  The full
endpoint run on `db5` exhibits the code's category. -/
theorem c5_counterexample :
    getNextMeasure db5 1
        = some (NextResponse.chosen 1 ⟨"unlearned", 1, 1, some 10⟩) ∧
    specCategory4 1 = "needs_practice" ∧
    ("unlearned" : String) ≠ "needs_practice" := by
  decide

/-- Claim C5 (amended): the category used by the selection algorithm is the
3-level table of the code: `unlearned` for best_rating ≤ 1, `challenging`
for best_rating = 2, `proficient` for best_rating ≥ 3. -/
theorem c5_amended (db : DB) (sid : Nat) (ms : List MeasureItem)
    (m : MeasureItem) (hms : measuresOf db sid = some ms) (hm : m ∈ ms) :
    m.category = categoryOf m.best_rating ∧
    (m.category = "proficient" ↔ 3 ≤ m.best_rating) ∧
    (m.category = "challenging" ↔ m.best_rating = 2) ∧
    (m.category = "unlearned" ↔ m.best_rating ≤ 1) := by
  have hf := buildMeasures_forall₂ hms
  obtain ⟨s, hs, hmk⟩ := forall₂_mem_right hf m hm
  have hcat := (mkItem_spec hmk).2.1
  refine ⟨hcat, ?_, ?_, ?_⟩ <;> rw [hcat]
  · exact (categoryOf_iff m.best_rating).1
  · exact (categoryOf_iff m.best_rating).2.1
  · exact (categoryOf_iff m.best_rating).2.2

/-- Witness for C5 (amended) at `db5`: the sole catalog item carries the
category derived from its best rating. -/
theorem c5_amended_witness :
    (⟨1, "unlearned", 1, 1, some 10⟩ : MeasureItem).category
      = categoryOf (⟨1, "unlearned", 1, 1, some 10⟩ : MeasureItem).best_rating :=
  (c5_amended db5 1 [⟨1, "unlearned", 1, 1, some 10⟩]
    ⟨1, "unlearned", 1, 1, some 10⟩ (by decide) (by decide)).1

/-- Claim C4: the selector returns the deterministic minimum of the entire
non-empty candidate set under the specification's lexicographic tuple
(category rank, ascending practice count, ascending start index). -/
theorem c4_selector_minimum (cands : List MeasureItem) (hne : cands ≠ [])
    (hcat : ∀ m ∈ cands, m.category = categoryOf m.best_rating) :
    ∃ c, pythonMin measurePriority cands = some c ∧ c ∈ cands ∧
      ∀ m ∈ cands, tupLe (claimTuple c) (claimTuple m) = true := by
  cases cands with
  | nil => exact absurd rfl hne
  | cons x xs =>
    obtain ⟨hmem, hmin⟩ := foldMin_spec measurePriority x xs
    refine ⟨foldMin measurePriority x xs, rfl, hmem, ?_⟩
    intro m hm
    exact tupLe_claim_of_tupLe_code (hcat _ hmem) (hcat _ hm) (hmin m hm)

/-- Witness for C4: on a two-candidate set the selected unlearned item is
lexicographically minimal under the specification's tuple. -/
theorem c4_selector_minimum_witness :
    tupLe (claimTuple ⟨1, "unlearned", 0, 0, none⟩)
      (claimTuple ⟨2, "proficient", 3, 1, some 5⟩) = true := by
  obtain ⟨c, hc, hmem, hmin⟩ := c4_selector_minimum
    [⟨1, "unlearned", 0, 0, none⟩, ⟨2, "proficient", 3, 1, some 5⟩]
    (by decide) (by decide)
  have hpm : pythonMin measurePriority
      [⟨1, "unlearned", 0, 0, none⟩, ⟨2, "proficient", 3, 1, some 5⟩]
      = some ⟨1, "unlearned", 0, 0, none⟩ := by decide
  rw [hpm] at hc
  have hcA : (⟨1, "unlearned", 0, 0, none⟩ : MeasureItem) = c := Option.some.inj hc
  rw [← hcA] at hmin
  exact hmin ⟨2, "proficient", 3, 1, some 5⟩ (by decide)

/-- Counterexample to claim C3: the selector never draws a random value.
On `db3` the proficient bucket of the candidate set is non-empty and a draw
r = 0.1 is below 0.15, yet the endpoint returns the unlearned measure 2 —
there is no code path returning a proficient pick. -/
theorem c3_counterexample :
    getNextMeasure db3 1 = some (NextResponse.chosen 2 ⟨"unlearned", 0, 0, none⟩) ∧
    specTakesProficientBucket (1 / 10 : ℚ) specCands3 = true ∧
    ("unlearned" : String) ≠ "proficient" := by
  refine ⟨by decide, ?_, by decide⟩
  have hb : (decide ((1 / 10 : ℚ) < 15 / 100)) = true := decide_eq_true (by norm_num)
  unfold specTakesProficientBucket
  rw [hb]
  decide

/-- Claim C3 (amended): selection involves no random draw; it is the
deterministic priority minimum, so whenever any non-proficient candidate is
eligible the chosen item is never proficient — no occasional review of
mastered material exists. -/
theorem c3_amended (ms : List MeasureItem) (c m : MeasureItem)
    (hc : pythonMin measurePriority (eligibleMeasures ms) = some c)
    (hm : m ∈ eligibleMeasures ms) (hmp : m.category ≠ "proficient")
    (hcat : ∀ x ∈ eligibleMeasures ms, x.category = categoryOf x.best_rating) :
    c.category ≠ "proficient" := by
  obtain ⟨hcmem, hcmin⟩ := pythonMin_spec hc
  have hle := hcmin m hm
  intro hcp
  have hmcat := hcat m hm
  have hcases := categoryOf_cases m.best_rating
  rw [← hmcat] at hcases
  have hms : categoryScore m.category ≤ 1 := by
    rcases hcases with h | h | h
    · rw [h]; decide
    · rw [h]; decide
    · exact absurd h hmp
  have hcs : categoryScore c.category = 2 := by rw [hcp]; decide
  simp only [tupLe, measurePriority, Bool.or_eq_true, Bool.and_eq_true,
    decide_eq_true_eq, beq_iff_eq] at hle
  omega

/-- Witness for C3 (amended): with one unlearned and one proficient
candidate the chosen item is not proficient. -/
theorem c3_amended_witness :
    (⟨1, "unlearned", 0, 0, none⟩ : MeasureItem).category ≠ "proficient" :=
  c3_amended [⟨1, "unlearned", 0, 0, none⟩, ⟨2, "proficient", 3, 1, some 5⟩]
    ⟨1, "unlearned", 0, 0, none⟩ ⟨1, "unlearned", 0, 0, none⟩
    (by decide) (by decide) (by decide) (by decide)

/-- Counterexample to claim C1: on a song with six unlearned single
measures the code computes a window of 5, while the claimed grow-by-1
algorithm yields 1. -/
theorem c1_counterexample :
    (measuresOf db1 1).map windowSize = some 5 ∧
    specWindowC1 specSingles1 [] = 1 ∧ (5 : Nat) ≠ 1 := by
  decide

/-- Claim C1 (amended): the window is min(length, 5), expanded to
min(length, 8) exactly when there are more than 5 catalog entries and the
first 5 all have best_rating ≥ 2; it never exceeds the catalog length and
is monotone when ratings improve pointwise. -/
theorem c1_amended :
    (∀ ms : List MeasureItem,
      windowSize ms = min ms.length
        (if 5 < ms.length ∧ ∀ m ∈ ms.take 5, 2 ≤ m.best_rating then 8 else 5)
      ∧ windowSize ms ≤ ms.length)
    ∧ ∀ ms ms2 : List MeasureItem,
        List.Forall₂ (fun a b => a.best_rating ≤ b.best_rating) ms ms2 →
        windowSize ms ≤ windowSize ms2 := by
  constructor
  · intro ms
    refine ⟨?_, windowSize_le_length ms⟩
    rw [windowSize_def]
    by_cases hB : 5 < ms.length ∧ ∀ m ∈ ms.take 5, 2 ≤ m.best_rating
    · rw [if_pos ((windowCond_iff ms).mpr hB), if_pos hB]
    · have hBc : ¬ ((5 < ms.length && (ms.take 5).countP isMeasureLearned == 5) = true) :=
        fun hc => hB ((windowCond_iff ms).mp hc)
      rw [if_neg hBc, if_neg hB]
  · intro ms ms2 hf
    have hlen := hf.length_eq
    by_cases hB : 5 < ms.length ∧ ∀ m ∈ ms.take 5, 2 ≤ m.best_rating
    · have hB2 : 5 < ms2.length ∧ ∀ m ∈ ms2.take 5, 2 ≤ m.best_rating := by
        refine ⟨by omega, ?_⟩
        have ht := List.forall₂_take 5 hf
        intro m hm
        obtain ⟨a, ha, hab⟩ := forall₂_mem_right ht m hm
        exact le_trans (hB.2 a ha) hab
      rw [windowSize_def, windowSize_def,
        if_pos ((windowCond_iff ms).mpr hB), if_pos ((windowCond_iff ms2).mpr hB2), hlen]
    · have hBc : ¬ ((5 < ms.length && (ms.take 5).countP isMeasureLearned == 5) = true) :=
        fun hc => hB ((windowCond_iff ms).mp hc)
      rw [windowSize_def, if_neg hBc, windowSize_def, ← hlen]
      have h5 : 5 ≤ (if (5 < ms.length && (ms2.take 5).countP isMeasureLearned == 5)
          = true then 8 else 5) := by
        split <;> omega
      exact le_min (Nat.min_le_left _ _) (le_trans (Nat.min_le_right _ _) h5)

/-- Witness for C1 (amended): improving the only measure's best rating from
0 to 3 does not shrink the window. -/
theorem c1_amended_witness :
    windowSize [⟨1, "unlearned", 0, 0, none⟩]
      ≤ windowSize [⟨1, "proficient", 3, 1, some 9⟩] :=
  c1_amended.2 [⟨1, "unlearned", 0, 0, none⟩] [⟨1, "proficient", 3, 1, some 9⟩]
    (List.Forall₂.cons (by decide) List.Forall₂.nil)

/-- Counterexample to claim C2: on `db2` (measure 1 proficient, measures
2-5 unlearned, window 5) the code hands the selector all five entries,
including the proficient measure 1; the claimed tier-1 set excludes it. -/
theorem c2_counterexample :
    (measuresOf db2 1).map (fun ms => (eligibleMeasures ms).map (fun m => m.measure))
      = some [1, 2, 3, 4, 5] ∧
    (specCandidatesC2 5 specSingles2 []).map (fun m => m.start) = [2, 3, 4, 5] ∧
    ([1, 2, 3, 4, 5] : List Nat) ≠ [2, 3, 4, 5] := by
  decide

/-- Claim C2 (amended): there is no tier precedence; the candidate set is
exactly the first windowSize entries of the catalog, with no filtering by
category and no group/single distinction. -/
theorem c2_amended (ms : List MeasureItem) :
    eligibleMeasures ms = ms.take (windowSize ms) ∧
    (eligibleMeasures ms).length = windowSize ms ∧
    (∀ m ∈ ms.take (windowSize ms), m ∈ eligibleMeasures ms) ∧
    (∀ m ∈ eligibleMeasures ms, m ∈ ms) := by
  refine ⟨rfl, ?_, fun m hm => hm, fun m hm => List.take_subset _ _ hm⟩
  unfold eligibleMeasures
  rw [List.length_take]
  exact min_eq_left (windowSize_le_length ms)

/-- Witness for C2 (amended): a concrete windowed entry is eligible and
drawn from the catalog. -/
theorem c2_amended_witness :
    (⟨1, "unlearned", 0, 0, none⟩ : MeasureItem)
      ∈ eligibleMeasures [⟨1, "unlearned", 0, 0, none⟩] ∧
    (⟨1, "unlearned", 0, 0, none⟩ : MeasureItem)
      ∈ [(⟨1, "unlearned", 0, 0, none⟩ : MeasureItem)] := by
  have h := c2_amended [⟨1, "unlearned", 0, 0, none⟩]
  have hm := h.2.2.1 ⟨1, "unlearned", 0, 0, none⟩ (by decide)
  exact ⟨hm, h.2.2.2 _ hm⟩

/-- Claim C7: the endpoint answers not-found exactly when the song id is
unknown; it answers the default measure-1 recommendation exactly when the
song exists but has no measure groups; in every other (valid-data) case it
returns a chosen measure. -/
theorem c7_failure_modes (db : DB) (sid : Nat)
    (hvalid : ∀ ps ∈ db.sessions, ratingScores ps.rating ≠ none) :
    (getNextMeasure db sid = some NextResponse.notFound ↔
      ¬ ∃ s ∈ db.songs, s.id = sid)
    ∧ (getNextMeasure db sid = some NextResponse.defaultMeasure ↔
        (∃ s ∈ db.songs, s.id = sid) ∧ songGroups db sid = [])
    ∧ ((∃ s ∈ db.songs, s.id = sid) → songGroups db sid ≠ [] →
        ∃ n st, getNextMeasure db sid = some (NextResponse.chosen n st)) := by
  have hany : (db.songs.any fun s => s.id == sid) = true
      ↔ ∃ s ∈ db.songs, s.id = sid := by
    simp [List.any_eq_true]
  by_cases hs : (db.songs.any fun s => s.id == sid) = true
  · have hex := hany.mp hs
    obtain ⟨ms, hms, hlen⟩ := buildMeasures_total hvalid (catalogStarts db sid)
    have hms2 : measuresOf db sid = some ms := hms
    have hget : getNextMeasure db sid =
        (match pythonMin measurePriority (eligibleMeasures ms) with
          | none => some NextResponse.defaultMeasure
          | some m => some (NextResponse.chosen m.measure
              ⟨m.category, m.best_rating, m.practice_count, m.last_practiced⟩)) := by
      unfold getNextMeasure
      rw [if_pos hs, hms2]
    cases hp : pythonMin measurePriority (eligibleMeasures ms) with
    | none =>
      rw [hp] at hget
      have hget2 : getNextMeasure db sid = some NextResponse.defaultMeasure := hget
      have hmsnil : ms = [] :=
        (eligibleMeasures_eq_nil_iff ms).mp (pythonMin_eq_none_iff.mp hp)
      have hgroups : songGroups db sid = [] := by
        apply catalogStarts_eq_nil_iff.mp
        apply List.length_eq_zero.mp
        rw [← hlen, hmsnil]
        rfl
      refine ⟨?_, ?_, ?_⟩
      · rw [hget2]
        simp [hex]
      · rw [hget2]
        simp [hex, hgroups]
      · intro _ hne
        exact absurd hgroups hne
    | some m =>
      rw [hp] at hget
      have hget2 : getNextMeasure db sid = some (NextResponse.chosen m.measure
          ⟨m.category, m.best_rating, m.practice_count, m.last_practiced⟩) := hget
      have hmsne : ms ≠ [] := by
        intro h0
        rw [(eligibleMeasures_eq_nil_iff ms).mpr h0] at hp
        simp [pythonMin] at hp
      have hgne : songGroups db sid ≠ [] := by
        intro hg
        apply hmsne
        apply List.length_eq_zero.mp
        rw [hlen, catalogStarts_eq_nil_iff.mpr hg]
        rfl
      refine ⟨?_, ?_, ?_⟩
      · rw [hget2]
        simp [hex]
      · rw [hget2]
        simp [hgne]
      · intro _ _
        exact ⟨m.measure,
          ⟨m.category, m.best_rating, m.practice_count, m.last_practiced⟩, hget2⟩
  · have hnex : ¬ ∃ s ∈ db.songs, s.id = sid := fun h => hs (hany.mpr h)
    have hget : getNextMeasure db sid = some NextResponse.notFound := by
      unfold getNextMeasure
      rw [if_neg hs]
    refine ⟨?_, ?_, ?_⟩
    · rw [hget]
      simp [hnex]
    · rw [hget]
      simp [hnex]
    · intro hex _
      exact absurd hex hnex

/-- Witness for C7: song 2 is unknown to `db1`, so the endpoint reports
not-found. -/
theorem c7_failure_modes_witness :
    getNextMeasure db1 2 = some NextResponse.notFound :=
  (c7_failure_modes db1 2 (by decide)).1.mpr (by decide)

/-- Counterexample to claim C8: the response of a successful scheduling
request (here on `db2`) carries the keys measure/category/best_rating/
practice_count/last_practiced only — `is_group`, required by the claim's
payload contract, appears nowhere. -/
theorem c8_counterexample :
    ("is_group" ∈ specStatsKeysC8) ∧ ("is_group" ∉ statsKeys) ∧
    ("is_group" ∉ responseKeys) ∧
    getNextMeasure db2 1 = some (NextResponse.chosen 2 ⟨"unlearned", 0, 0, none⟩) := by
  decide

/-- Claim C8 (amended): the successful payload is the chosen item's measure
index plus exactly the stats category, best_rating, practice_count and
last_practiced; no is_group field exists. -/
theorem c8_amended (db : DB) (sid n : Nat) (st : Stats)
    (h : getNextMeasure db sid = some (NextResponse.chosen n st)) :
    (∃ ms m, measuresOf db sid = some ms ∧ m ∈ eligibleMeasures ms ∧
      n = m.measure ∧
      st = ⟨m.category, m.best_rating, m.practice_count, m.last_practiced⟩) ∧
    statsKeys = ["category", "best_rating", "practice_count", "last_practiced"] ∧
    "is_group" ∉ statsKeys := by
  obtain ⟨ms, m, h1, h2, h3, h4, h5⟩ := chosen_inv h
  exact ⟨⟨ms, m, h1, h3, h4, h5⟩, rfl, by decide⟩

/-- Witness for C8 (amended): instantiated on the successful request of
`db3`. -/
theorem c8_amended_witness :
    statsKeys = ["category", "best_rating", "practice_count", "last_practiced"] ∧
    "is_group" ∉ statsKeys :=
  (c8_amended db3 1 2 ⟨"unlearned", 0, 0, none⟩ (by decide)).2

/-- Counterexample to claim C9: in `db9` the single measure (3,3) and the
group (3,5) share a start index; the code's catalog merges them into one
item whose rating history pools both (best_rating 3 though the group was
never practiced), while the claim demands two distinct items with separate
histories. -/
theorem c9_counterexample :
    measuresOf db9 1 = some [⟨3, "proficient", 3, 1, some 10⟩] ∧
    specCatalogItemCount (songGroups db9 1) = 2 ∧ (1 : Nat) ≠ 2 := by
  decide

/-- Claim C9 (amended): the catalog holds exactly one item per distinct
start_measure, in strictly increasing start order; all sessions of every
group sharing that start are pooled into that item's stats. -/
theorem c9_amended (db : DB) (sid : Nat) (ms : List MeasureItem)
    (hms : measuresOf db sid = some ms) :
    List.Chain' (· < ·) (ms.map (fun m => m.measure)) ∧
    (∀ s : Nat, (∃ m ∈ ms, m.measure = s) ↔
      ∃ g ∈ songGroups db sid, g.startMeasure = s) ∧
    (∀ m ∈ ms, m.practice_count = (sessionsForStart db sid m.measure).length ∧
      m.last_practiced
        = ((sessionsForStart db sid m.measure).map (fun ps => ps.practicedAt)).max?) := by
  have hf := buildMeasures_forall₂ hms
  have hmap := measures_map_measure hf
  refine ⟨?_, ?_, ?_⟩
  · rw [hmap]
    have hs := catalogStarts_sorted db sid
    have hn := catalogStarts_nodup db sid
    have hpl : List.Pairwise (· < ·) (catalogStarts db sid) :=
      List.Pairwise.imp₂ (fun a b h1 h2 => lt_of_le_of_ne h1 h2) hs hn
    exact hpl.chain'
  · intro s
    constructor
    · rintro ⟨m, hm, rfl⟩
      obtain ⟨s2, hs2, hmk⟩ := forall₂_mem_right hf m hm
      rw [(mkItem_spec hmk).1]
      exact mem_catalogStarts.mp hs2
    · intro hgex
      obtain ⟨g, hg, hgs⟩ := hgex
      have hsmem : s ∈ catalogStarts db sid := mem_catalogStarts.mpr ⟨g, hg, hgs⟩
      obtain ⟨m, hm, hmk⟩ := forall₂_mem_left hf s hsmem
      exact ⟨m, hm, (mkItem_spec hmk).1⟩
  · intro m hm
    obtain ⟨s, hs, hmk⟩ := forall₂_mem_right hf m hm
    have h1 := (mkItem_spec hmk).1
    rw [h1]
    exact ⟨(mkItem_spec hmk).2.2.1, (mkItem_spec hmk).2.2.2.1⟩

/-- Witness for C9 (amended): the pooled practice count of the merged item
of `db9`. -/
theorem c9_amended_witness :
    (⟨3, "proficient", 3, 1, some 10⟩ : MeasureItem).practice_count
      = (sessionsForStart db9 1 (⟨3, "proficient", 3, 1, some 10⟩ : MeasureItem).measure).length :=
  ((c9_amended db9 1 [⟨3, "proficient", 3, 1, some 10⟩] (by decide)).2.2
    ⟨3, "proficient", 3, 1, some 10⟩ (by decide)).1

/-- Claim C10: the window is min(length, 8) exactly when there are more
than 5 catalog entries whose first 5 all have best_rating ≥ 2, otherwise
min(length, 5); consequently a catalog entry at position 9 or later is
never recommended. -/
theorem c10_window_cap (db : DB) (sid : Nat) (ms : List MeasureItem)
    (hms : measuresOf db sid = some ms) :
    ((5 < ms.length ∧ ∀ m ∈ ms.take 5, 2 ≤ m.best_rating) →
      windowSize ms = min ms.length 8)
    ∧ (¬ (5 < ms.length ∧ ∀ m ∈ ms.take 5, 2 ≤ m.best_rating) →
      windowSize ms = min ms.length 5)
    ∧ (∀ n st, getNextMeasure db sid = some (NextResponse.chosen n st) →
        ∃ m ∈ ms.take 8, m.measure = n) := by
  refine ⟨?_, ?_, ?_⟩
  · intro hB
    rw [windowSize_def, if_pos ((windowCond_iff ms).mpr hB)]
  · intro hB
    rw [windowSize_def, if_neg (fun hc => hB ((windowCond_iff ms).mp hc))]
  · intro n st h
    obtain ⟨ms2, m, h1, h2, h3, h4, h5⟩ := chosen_inv h
    have hmseq : ms2 = ms := by
      have hss := hms.symm.trans h1
      exact (Option.some.inj hss).symm
    subst hmseq
    have h3b : m ∈ ms2.take (windowSize ms2) := h3
    exact ⟨m, mem_take_mono (windowSize_le_eight ms2) h3b, h4.symm⟩

/-- Witness for C10: on `db1` (six unlearned measures) the window stays at
5. -/
theorem c10_window_cap_witness :
    windowSize [⟨1, "unlearned", 0, 0, none⟩, ⟨2, "unlearned", 0, 0, none⟩,
      ⟨3, "unlearned", 0, 0, none⟩, ⟨4, "unlearned", 0, 0, none⟩,
      ⟨5, "unlearned", 0, 0, none⟩, ⟨6, "unlearned", 0, 0, none⟩] = 5 := by
  have h := c10_window_cap db1 1
    [⟨1, "unlearned", 0, 0, none⟩, ⟨2, "unlearned", 0, 0, none⟩,
     ⟨3, "unlearned", 0, 0, none⟩, ⟨4, "unlearned", 0, 0, none⟩,
     ⟨5, "unlearned", 0, 0, none⟩, ⟨6, "unlearned", 0, 0, none⟩] (by decide)
  exact (h.2.1 (by decide)).trans (by decide)
